import Mathlib

/-!
Shallow embedding of the core of the `pressure` blog engine
(`src/core.rs`, `src/web.rs`, `src/error.rs`) in Lean 4, together with
theorems settling the frozen claims about its specification.

Conventions of the embedding:
* `yaml_rust::Yaml` becomes the inductive `Pressure.Yaml`; its `Hash` is a
  key-value list with the semantics of `linked_hash_map` (insert on an
  existing key replaces the value and keeps the position, otherwise the
  pair is appended at the end).
* `chrono` timestamps become the record `Pressure.DateTime`; the two parse
  calls `NaiveDateTime::parse_from_str(s, "%Y-%m-%d %H:%M:%S")` and
  `NaiveDate::parse_from_str(s, "%Y-%m-%d")` are modelled item by item
  after the chrono strftime parser: a numeric item first skips leading
  whitespace and then consumes between 1 and `width` digits (parsing does
  not require zero padding); a literal item consumes exactly its
  character; the space item between `%d` and `%H` skips any amount of
  whitespace; the whole input must be consumed; the parsed fields are then
  validated against the proleptic Gregorian calendar with the year range
  of `chrono::NaiveDate`.  Signed years, whitespace and digits are modelled
  at the ASCII level; leap-second inputs carry 60 in the seconds field as
  chrono does for `%S`.
* fallible Rust code returns `Outcome`: `ok` and `err` model
  `PressResult`, and `crash` is the reachable-failure branch of the total
  embedding for code that can panic (`unwrap`, slice indexing,
  `NaiveDate::from_ymd`).
* filesystem paths become `RPath` (a list of components plus an
  `absolute` flag) with `join` / `starts_with` component semantics as in
  `std::path`, and the filesystem itself is a finite list of
  (canonical path, file text) pairs.
-/

namespace Pressure

/-- Model of `yaml_rust::Yaml` (the Document Value of the spec). -/
inductive Yaml where
  | null : Yaml
  | bool (b : Bool) : Yaml
  | int (n : Int) : Yaml
  | str (s : String) : Yaml
  | arr (xs : List Yaml) : Yaml
  | hash (kvs : List (Yaml × Yaml)) : Yaml

/-- Does a hash key equal the given string key?  All key lookups in the
source use `&str` keys, which compare equal only to `Yaml::String`. -/
def Yaml.keyIs (k : Yaml) (key : String) : Bool :=
  match k with
  | .str s => s == key
  | _ => false

/-- `Yaml::get` / indexing on a hash with a string key: first matching
pair, `none` on a non-hash or a missing key. -/
def Yaml.get (y : Yaml) (key : String) : Option Yaml :=
  match y with
  | .hash kvs => (kvs.find? (fun kv => kv.fst.keyIs key)).map (fun kv => kv.snd)
  | _ => none

/-- `linked_hash_map` insert: replace the value at an existing key in
place, otherwise append the new pair at the end. -/
def hashSet : List (Yaml × Yaml) → String → Yaml → List (Yaml × Yaml)
  | [], key, v => [(Yaml.str key, v)]
  | kv :: rest, key, v =>
    if kv.fst.keyIs key then (kv.fst, v) :: rest
    else kv :: hashSet rest key v

/-- In-place update of a hash value (covers both `get_mut` assignment and
`as_hash_mut().insert`); the identity on a non-hash. -/
def Yaml.set (y : Yaml) (key : String) (v : Yaml) : Yaml :=
  match y with
  | .hash kvs => .hash (hashSet kvs key v)
  | y => y

/-- `Yaml::as_hash`. -/
def Yaml.asHash : Yaml → Option (List (Yaml × Yaml))
  | .hash kvs => some kvs
  | _ => none

/-- Model of `chrono::NaiveDateTime` at second precision (a leap second
parsed via `%S` is carried as `second = 60`, as chrono accepts for that
item). -/
structure DateTime where
  year : Int
  month : Nat
  day : Nat
  hour : Nat
  minute : Nat
  second : Nat
deriving DecidableEq, Repr

/-- Chronological comparison of `NaiveDateTime` values. -/
def DateTime.cmp (a b : DateTime) : Ordering :=
  (compare a.year b.year).then ((compare a.month b.month).then
    ((compare a.day b.day).then ((compare a.hour b.hour).then
      ((compare a.minute b.minute).then (compare a.second b.second)))))

/-- A parsed calendar date (`chrono::NaiveDate`). -/
structure Date where
  year : Int
  month : Nat
  day : Nat
deriving DecidableEq, Repr

/-- `NaiveDate::and_hms(0, 0, 0)`: midnight of a date. -/
def Date.andHms0 (d : Date) : DateTime :=
  ⟨d.year, d.month, d.day, 0, 0, 0⟩

/-- Proleptic Gregorian leap-year rule (the remainder tests agree with the
i32 arithmetic of chrono because only comparisons with zero are made). -/
def isLeapYear (y : Int) : Bool :=
  (y % 4 == 0 && y % 100 != 0) || y % 400 == 0

def daysInMonth (y : Int) (m : Nat) : Nat :=
  if m = 2 then (if isLeapYear y then 29 else 28)
  else if m = 4 ∨ m = 6 ∨ m = 9 ∨ m = 11 then 30
  else 31

/-- Calendar validity as checked by `chrono::NaiveDate` construction,
including the `NaiveDate` year range. -/
def validDate (y : Int) (m d : Nat) : Bool :=
  if -262144 ≤ y ∧ y ≤ 262143 ∧ 1 ≤ m ∧ m ≤ 12 ∧ 1 ≤ d ∧ d ≤ daysInMonth y m
  then true else false

/-- Time-of-day validity as checked by `Parsed::to_naive_time` (second 60
is the leap-second case accepted by `%S`). -/
def validTime (h mi s : Nat) : Bool :=
  if h ≤ 23 ∧ mi ≤ 59 ∧ s ≤ 60 then true else false

/-- Consume up to `max` leading ASCII digits. -/
def takeDigits : Nat → List Char → (List Char × List Char)
  | 0, cs => ([], cs)
  | _ + 1, [] => ([], [])
  | n + 1, c :: cs =>
    if c.isDigit then
      let p := takeDigits n cs
      (c :: p.fst, p.snd)
    else ([], c :: cs)

def digitsToNat (ds : List Char) : Nat :=
  ds.foldl (fun acc c => acc * 10 + (c.toNat - 48)) 0

/-- chrono `scan::number`: between 1 and `maxw` digits. -/
def scanNumber (maxw : Nat) (cs : List Char) : Option (Nat × List Char) :=
  let p := takeDigits maxw cs
  if p.fst.isEmpty then none else some (digitsToNat p.fst, p.snd)

def skipWs (cs : List Char) : List Char :=
  cs.dropWhile (fun c => c.isWhitespace)

/-- An unsigned chrono numeric item of width `maxw`: leading whitespace is
skipped, then 1 to `maxw` digits are consumed. -/
def numericItem (maxw : Nat) (cs : List Char) : Option (Nat × List Char) :=
  scanNumber maxw (skipWs cs)

/-- The `%Y` item: signed; without an explicit sign at most 4 digits are
consumed, with a sign the digit run is unbounded (capped here at 18
digits, where the chrono accumulator would overflow and fail, and the
capped run leaves digits behind that make the following literal fail, so
both models reject). -/
def yearItem (cs : List Char) : Option (Int × List Char) :=
  let cs := skipWs cs
  match cs with
  | '-' :: rest => (scanNumber 18 rest).map (fun p => (-(Int.ofNat p.fst), p.snd))
  | '+' :: rest => (scanNumber 18 rest).map (fun p => (Int.ofNat p.fst, p.snd))
  | _ => (scanNumber 4 cs).map (fun p => (Int.ofNat p.fst, p.snd))

/-- A literal format item: consume exactly the given character. -/
def litItem (c : Char) (cs : List Char) : Option (List Char) :=
  match cs with
  | d :: rest => if d = c then some rest else none
  | [] => none

/-- `NaiveDateTime::parse_from_str(s, "%Y-%m-%d %H:%M:%S")` on a character
list; the whole input must be consumed and the fields must form a valid
date and time. -/
def parseDateTimeChars (cs : List Char) : Option DateTime := do
  let (y, cs) ← yearItem cs
  let cs ← litItem '-' cs
  let (mo, cs) ← numericItem 2 cs
  let cs ← litItem '-' cs
  let (d, cs) ← numericItem 2 cs
  let cs := skipWs cs
  let (h, cs) ← numericItem 2 cs
  let cs ← litItem ':' cs
  let (mi, cs) ← numericItem 2 cs
  let cs ← litItem ':' cs
  let (s, cs) ← numericItem 2 cs
  if cs.isEmpty && validDate y mo d && validTime h mi s then
    some ⟨y, mo, d, h, mi, s⟩
  else none

/-- `NaiveDate::parse_from_str(s, "%Y-%m-%d")` on a character list. -/
def parseDateChars (cs : List Char) : Option Date := do
  let (y, cs) ← yearItem cs
  let cs ← litItem '-' cs
  let (mo, cs) ← numericItem 2 cs
  let cs ← litItem '-' cs
  let (d, cs) ← numericItem 2 cs
  if cs.isEmpty && validDate y mo d then
    some ⟨y, mo, d⟩
  else none

def parseDateTime (s : String) : Option DateTime :=
  parseDateTimeChars s.toList

def parseDate (s : String) : Option Date :=
  parseDateChars s.toList

def pad2 (n : Nat) : String :=
  if n < 10 then "0" ++ toString n else toString n

def pad4 (n : Nat) : String :=
  if n < 10 then "000" ++ toString n
  else if n < 100 then "00" ++ toString n
  else if n < 1000 then "0" ++ toString n
  else toString n

def formatYear : Int → String
  | .ofNat n => pad4 n
  | .negSucc m => "-" ++ pad4 (m + 1)

/-- `format("{}", dt.format("%Y-%m-%d %H:%M:%S"))`: the canonical
full-timestamp serialization used by the source. -/
def formatDateTime (dt : DateTime) : String :=
  formatYear dt.year ++ "-" ++ pad2 dt.month ++ "-" ++ pad2 dt.day ++ " " ++
    pad2 dt.hour ++ ":" ++ pad2 dt.minute ++ ":" ++ pad2 dt.second

/-- Model of `std::path` components (`ParentDir`, `CurDir`, `Normal`);
the root is carried as the `absolute` flag of `RPath`. -/
inductive PathComp where
  | parentDir : PathComp
  | curDir : PathComp
  | normal (s : String) : PathComp
deriving DecidableEq, Repr

/-- A path as its component list; `std::path` comparisons and `join` work
on components and do not resolve `..`. -/
structure RPath where
  absolute : Bool
  comps : List PathComp
deriving DecidableEq, Repr

/-- `Path::join` / `PathBuf::push`: an absolute path replaces the base,
otherwise the components are appended. -/
def pathJoin (base other : RPath) : RPath :=
  if other.absolute then other else ⟨base.absolute, base.comps ++ other.comps⟩

/-- `Path::starts_with`: whole-component prefix comparison, without any
normalization of `..` components. -/
def pathStartsWith (p base : RPath) : Bool :=
  p.absolute == base.absolute && base.comps.isPrefixOf p.comps

/-- Resolution of `.` and `..` as the operating system performs it when a
path is opened or canonicalized (the paths handed to the filesystem model
are absolute, where the parent of the root is the root). -/
def normComp (acc : List PathComp) : PathComp → List PathComp
  | .normal s => acc ++ [.normal s]
  | .curDir => acc
  | .parentDir => acc.dropLast

def normalize (p : RPath) : RPath :=
  ⟨p.absolute, p.comps.foldl normComp []⟩

/-- `Path::file_name`: the final `Normal` component. -/
def RPath.fileName (p : RPath) : Option String :=
  match p.comps.getLast? with
  | some (.normal s) => some s
  | _ => none

/-- Split a file name at its last dot, returning (before, after). -/
def splitAtLastDot : List Char → Option (List Char × List Char)
  | [] => none
  | c :: cs =>
    match splitAtLastDot cs with
    | some p => some (c :: p.fst, p.snd)
    | none => if c = '.' then some ([], cs) else none

/-- The extension of a file name under the `std::path` rules: the part
after the last dot, none when there is no dot or when the only dot is the
leading character. -/
def extOfName (s : String) : Option String :=
  match splitAtLastDot s.toList with
  | some p => if p.fst.isEmpty then none else some (String.mk p.snd)
  | none => none

/-- The stem of a file name: the part before the last dot (the whole name
when there is no dot or only a leading dot). -/
def stemOfName (s : String) : String :=
  match splitAtLastDot s.toList with
  | some p => if p.fst.isEmpty then s else String.mk p.fst
  | none => s

def RPath.extension (p : RPath) : Option String :=
  p.fileName.bind extOfName

/-- `PathBuf::set_file_name`. -/
def RPath.setFileName (p : RPath) (name : String) : RPath :=
  match p.fileName with
  | some _ => ⟨p.absolute, p.comps.dropLast ++ [.normal name]⟩
  | none => ⟨p.absolute, p.comps ++ [.normal name]⟩

/-- `PathBuf::set_extension` (only reached in the source when the current
extension is `html`, hence when a file name exists). -/
def RPath.setExtension (p : RPath) (ext : String) : RPath :=
  match p.fileName with
  | some name => p.setFileName (stemOfName name ++ "." ++ ext)
  | none => p

/-- `Path::file_stem().unwrap_or_default()`. -/
def RPath.fileStem (p : RPath) : String :=
  match p.fileName with
  | some name => stemOfName name
  | none => ""

/-- The filesystem: a finite list of (canonical absolute file path, file
text) pairs. -/
def FileSys : Type := List (RPath × String)

/-- `Path::is_dir`: a directory exists exactly when some file lies
strictly below the resolved path. -/
def isDir (fs : FileSys) (p : RPath) : Bool :=
  let q := normalize p
  fs.any (fun f =>
    f.fst.absolute == q.absolute
      && q.comps != f.fst.comps
      && q.comps.isPrefixOf f.fst.comps)

/-- `PressError` (`src/error.rs`): `msg` is `PressError::new`, `io` and
`scan` are the `From` conversions of I/O and YAML scan errors. -/
inductive PErr where
  | msg (s : String) : PErr
  | io : PErr
  | scan : PErr
deriving DecidableEq, Repr

/-- Total embedding of a fallible Rust call: `ok`/`err` model
`PressResult`, `crash` is the failure branch for panics. -/
inductive Outcome (α : Type) where
  | ok (a : α) : Outcome α
  | err (e : PErr) : Outcome α
  | crash : Outcome α
deriving DecidableEq, Repr

def Outcome.isOk {α : Type} : Outcome α → Bool
  | .ok _ => true
  | _ => false

/-- `EntryType` (`src/core.rs`). -/
inductive EntryType where
  | post : EntryType
  | page : EntryType
  | unknown : EntryType
deriving DecidableEq, Repr

/-- `Entry` (`src/core.rs`). -/
structure Entry where
  etype : EntryType
  filepath : RPath
  url : Option String
  meta : Yaml
  created : Option DateTime
  updated : Option DateTime
  content : String

/-- `Entry::default`. -/
def defaultEntry : Entry :=
  ⟨.unknown, ⟨false, []⟩, none, .hash [], none, none, ""⟩

/-- `EntryMetaDefaults` (`src/core.rs`). -/
structure EntryMetaDefaults where
  title : Option String
  created : Option DateTime

/-- First block of `Entry::canonicalize_meta` for one of the keys
`categories` / `tags`: wrap a bare string into a one-element array,
insert an empty array when the key is absent (`as_hash_mut().unwrap()`
panics on a non-hash there), leave anything else unchanged. -/
def ensureArray (key : String) (meta : Yaml) : Option Yaml :=
  match meta.get key with
  | some (.str s) => some (meta.set key (.arr [.str s]))
  | some _ => some meta
  | none =>
    match meta with
    | .hash kvs => some (.hash (hashSet kvs key (.arr [])))
    | _ => none

/-- The `categories` / `tags` block, in source order. -/
def canonStepArrays (meta : Yaml) : Option Yaml :=
  (ensureArray "categories" meta).bind (ensureArray "tags")

/-- The default-title block. -/
def canonStepTitle (defaults : EntryMetaDefaults) (meta : Yaml) : Option Yaml :=
  match meta.get "title" with
  | some _ => some meta
  | none =>
    match meta with
    | .hash kvs =>
      some (.hash (hashSet kvs "title" (.str (defaults.title.getD ""))))
    | _ => none

/-- The `created` block of `canonicalize_meta` (`src/core.rs` lines
234-255): a present string is parsed first as a full timestamp (string
left as is) then as a date (string gets " 00:00:00" appended), and is
blanked when both fail; otherwise the caller default or an empty string
is inserted. -/
def canonStepCreated (defaults : EntryMetaDefaults) (e : Entry) : Option Entry :=
  match e.meta.get "created" with
  | some (.str s) =>
    match parseDateTime s with
    | some dt => some { e with created := some dt }
    | none =>
      match parseDate s with
      | some d =>
        some { e with
                meta := e.meta.set "created" (.str (s ++ " 00:00:00")),
                created := some d.andHms0 }
      | none => some { e with meta := e.meta.set "created" (.str "") }
  | _ =>
    match defaults.created with
    | some c =>
      match e.meta with
      | .hash kvs =>
        some { e with
                meta := .hash (hashSet kvs "created" (.str (formatDateTime c))),
                created := some c }
      | _ => none
    | none =>
      match e.meta with
      | .hash kvs => some { e with meta := .hash (hashSet kvs "created" (.str "")) }
      | _ => none

/-- The `updated` block of `canonicalize_meta` (`src/core.rs` lines
257-272), transcribed as written: in the branch where no `updated` string
is present, the source inserts the empty string under the key `created`
(lines 267-272), not under `updated`. -/
def canonStepUpdated (e : Entry) : Option Entry :=
  match e.meta.get "updated" with
  | some (.str s) =>
    match parseDateTime s with
    | some dt => some { e with updated := some dt }
    | none =>
      match parseDate s with
      | some d =>
        some { e with
                meta := e.meta.set "updated" (.str (s ++ " 00:00:00")),
                updated := some d.andHms0 }
      | none => some { e with meta := e.meta.set "updated" (.str "") }
  | _ =>
    match e.meta with
    | .hash kvs => some { e with meta := .hash (hashSet kvs "created" (.str "")) }
    | _ => none

/-- `Entry::canonicalize_meta`: the four blocks in source order.  The
source returns `PressResult<()>` but no branch produces an `Err`; the
`none` result is the failure branch of the `unwrap` calls on a non-hash
metadata value. -/
def Entry.canonicalizeMeta (e : Entry) (defaults : EntryMetaDefaults) : Option Entry := do
  let meta1 ← canonStepArrays e.meta
  let meta2 ← canonStepTitle defaults meta1
  let e2 ← canonStepCreated defaults { e with meta := meta2 }
  canonStepUpdated e2

/-- Split a character list at a separator character (the semantics of
both `str::split(c)` and `String.splitOn` for a one-character
separator). -/
def splitOnChar (sep : Char) : List Char → List (List Char)
  | [] => [[]]
  | c :: rest =>
    let r := splitOnChar sep rest
    if c = sep then [] :: r
    else
      match r with
      | h :: t => (c :: h) :: t
      | [] => [[c]]

def splitString (sep : Char) (s : String) : List String :=
  (splitOnChar sep s.toList).map String.mk

/-- `str::trim`: drop whitespace from both ends. -/
def trimString (s : String) : String :=
  String.mk (((s.toList.dropWhile Char.isWhitespace).reverse.dropWhile
    Char.isWhitespace).reverse)

/-- Drop one trailing carriage return, as `str::lines` does before each
line feed. -/
def stripCr (l : String) : String :=
  if l.toList.getLast? = some '\x0d' then String.mk l.toList.dropLast else l

/-- `str::lines`: split at `\n`, dropping one `\r` before each `\n` and
the optional final line terminator. -/
def rustLines (s : String) : List String :=
  let parts := splitString '\n' s
  let init := parts.dropLast.map stripCr
  match parts.getLast? with
  | none => []
  | some last => if last = "" then init else init ++ [last]

/-- Modelled from the spec: markdown-to-HTML conversion is delegated to
the external `comrak` renderer, whose output the spec leaves
unconstrained; it is modelled as the identity on the remainder text.  No
claim depends on the rendered text. -/
def markdownToHtml (s : String) : String := s

/-- A line is blank when it contains only whitespace. -/
def isBlankLine (l : String) : Bool :=
  l.toList.all (fun c => c.isWhitespace)

/-- Parse one `key: value` line of the YAML fragment this model covers. -/
def parseYamlLine (l : String) : Option (Yaml × Yaml) :=
  match splitString ':' l with
  | key :: rest =>
    if rest.isEmpty then none
    else
      let value := trimString (String.intercalate ":" rest)
      some (Yaml.str (trimString key),
        if value = "" then Yaml.null else Yaml.str value)
  | [] => none

def parseYamlLines : List String → Option (List (Yaml × Yaml))
  | [] => some []
  | l :: rest =>
    if isBlankLine l then parseYamlLines rest
    else
      match parseYamlLine l, parseYamlLines rest with
      | some kv, some kvs => some (kv :: kvs)
      | _, _ => none

/-- Model of `YamlLoader::load_from_str`, restricted to the fragment the
development needs: an input with no non-blank line yields an empty
document list (as yaml_rust does for the empty string), a block of
`key: value` scalar lines yields a single hash document, and anything
else is a scan error.  The claims exercise only the first two cases. -/
def yamlLoadFromStr (s : String) : Except PErr (List Yaml) :=
  let ls := rustLines s
  if ls.all isBlankLine then .ok []
  else
    match parseYamlLines ls with
    | some kvs => .ok [Yaml.hash kvs]
    | none => .error .scan

/-- The tail of `load_entry`: fill in the content field from the
remainder lines (`remained.join("\n").trim()` rendered, or the empty
string on a metadata-only load). -/
def finishEntry (e : Entry) (remained : List String) (metaOnly : Bool) : Outcome Entry :=
  .ok { e with
          content :=
            if metaOnly then ""
            else markdownToHtml (trimString (String.intercalate "\n" remained)) }

/-- `load_entry` (`src/core.rs` lines 285-319).  `filepath.canonicalize()`
and `fs::read_to_string` fail with an I/O error when the file is absent;
the indexing `[0]` into the loaded YAML document list is a panic (the
`crash` branch) when the list is empty. -/
def loadEntry (fs : FileSys) (etype : EntryType) (filepath : RPath)
    (metaOnly : Bool) : Outcome Entry :=
  match fs.lookup (normalize filepath) with
  | none => .err .io
  | some fileContent =>
    let entry0 : Entry :=
      { defaultEntry with etype := etype, filepath := normalize filepath }
    match rustLines fileContent with
    | [] => .ok entry0
    | l0 :: tmpLines =>
      if l0 = "---" then
        match tmpLines.findIdx? (fun x => x = "---") with
        | some fmEnd =>
          match yamlLoadFromStr (String.intercalate "\n" (tmpLines.take fmEnd)) with
          | .error e => .err e
          | .ok docs =>
            match docs.head? with
            | none => .crash
            | some meta =>
              if meta.asHash.isNone then
                .err (.msg "Frontmatter must be a valid YAML hash map.")
              else
                finishEntry { entry0 with meta := meta }
                  (tmpLines.drop (fmEnd + 1)) metaOnly
        | none => finishEntry entry0 (l0 :: tmpLines) metaOnly
      else finishEntry entry0 (l0 :: tmpLines) metaOnly

/-- The default title of a post or page: the slug with dashes replaced by
spaces (`name.split("-").collect::<Vec<_>>().join(" ")`). -/
def dashesToSpaces (name : String) : String :=
  String.intercalate " " (splitString '-' name)

/-- `Instance::load_post` (`src/core.rs` lines 72-90).  The filename is
rebuilt with zero padding; `NaiveDate::from_ymd` panics (the `crash`
branch) when the numbers from the filename are not a valid calendar
date. -/
def loadPost (fs : FileSys) (postsFolder : RPath) (year month day : Nat)
    (name : String) (metaOnly : Bool) : Outcome Entry :=
  let filename :=
    pad4 year ++ "-" ++ pad2 month ++ "-" ++ pad2 day ++ "-" ++ name ++ ".md"
  match loadEntry fs .post
      ⟨postsFolder.absolute, postsFolder.comps ++ [.normal filename]⟩ metaOnly with
  | .err e => .err e
  | .crash => .crash
  | .ok post =>
    if validDate (Int.ofNat year) month day then
      match post.canonicalizeMeta
          ⟨some (dashesToSpaces name), some ⟨Int.ofNat year, month, day, 0, 0, 0⟩⟩ with
      | some p => .ok p
      | none => .crash
    else .crash

/-- The post filename regex
`^(?P<year>\d{4})-(?P<month>\d{2})-(?P<day>\d{2})-(?P<name>.+).md$` of
`load_posts`, with its unescaped dot before `md`: after the date prefix
the remainder must consist of a non-empty greedy `name` (no newline),
one arbitrary non-newline character, and the two letters `md`.  `\d` is
modelled as an ASCII digit. -/
def matchPostFilename (filename : String) : Option (Nat × Nat × Nat × String) :=
  match filename.toList with
  | y1 :: y2 :: y3 :: y4 :: '-' :: m1 :: m2 :: '-' :: d1 :: d2 :: '-' :: rest =>
    if ([y1, y2, y3, y4, m1, m2, d1, d2].all Char.isDigit)
        && decide (4 ≤ rest.length)
        && (rest.take (rest.length - 3)).all (fun c => c ≠ '\n')
        && ((rest.drop (rest.length - 3)).take 1).all (fun c => c ≠ '\n')
        && (rest.drop (rest.length - 2) = ['m', 'd']) then
      some (digitsToNat [y1, y2, y3, y4], digitsToNat [m1, m2],
        digitsToNat [d1, d2], String.mk (rest.take (rest.length - 3)))
    else none
  | _ => none

/-- The sort comparator of `load_posts` (`src/core.rs` lines 112-123),
transcribed as written: the first branch tests `p1.created.is_none()`
twice, so the second branch is unreachable; in the final branch both
fields are `Some` and the `unwrap` calls cannot panic, modelled with a
default that is never used. -/
def postCmp (p1 p2 : Entry) : Ordering :=
  if p1.created.isNone && p1.created.isNone then .eq
  else if p1.created.isNone then .lt
  else if p2.created.isNone then .gt
  else DateTime.cmp (p2.created.getD ⟨0, 1, 1, 0, 0, 0⟩)
    (p1.created.getD ⟨0, 1, 1, 0, 0, 0⟩)

/-- `Vec::sort_by` is a stable sort; it is modelled as a stable
insertion sort over the relation "the comparator does not say Greater".
No claim depends on the output order beyond the comparator itself. -/
def sortEntries (l : List Entry) : List Entry :=
  l.insertionSort (fun a b => postCmp a b ≠ Ordering.gt)

/-- The directory walk of `Instance::load_posts`: filenames that do not
match the pattern are skipped, per-file load errors are dropped by
`.ok()`, panics propagate. -/
def collectPosts (fs : FileSys) (postsFolder : RPath) (metaOnly : Bool) :
    List String → Outcome (List Entry)
  | [] => .ok []
  | fname :: rest =>
    match matchPostFilename fname with
    | none => collectPosts fs postsFolder metaOnly rest
    | some (y, m, d, name) =>
      match loadPost fs postsFolder y m d name metaOnly with
      | .crash => .crash
      | .err _ => collectPosts fs postsFolder metaOnly rest
      | .ok e =>
        match collectPosts fs postsFolder metaOnly rest with
        | .ok es => .ok (e :: es)
        | o => o

/-- `Instance::load_posts` (`src/core.rs` lines 92-125): scan the dirent
names of the posts folder, then sort with the comparator. -/
def loadPosts (fs : FileSys) (postsFolder : RPath) (direntNames : List String)
    (metaOnly : Bool) : Outcome (List Entry) :=
  match collectPosts fs postsFolder metaOnly direntNames with
  | .ok posts => .ok (sortEntries posts)
  | .err e => .err e
  | .crash => .crash

/-- `Instance::load_page` (`src/core.rs` lines 127-161). -/
def loadPage (fs : FileSys) (pagesFolder : RPath) (relUrl : RPath) : Outcome Entry :=
  let filepath := pathJoin pagesFolder relUrl
  if !pathStartsWith filepath pagesFolder then .err (.msg "Bad URL")
  else
    let filepath :=
      if isDir fs filepath then
        ⟨filepath.absolute, filepath.comps ++ [.normal "index.md"]⟩
      else if filepath.extension.getD "" = "html" then filepath.setExtension "md"
      else
        match filepath.fileName with
        | some fname => filepath.setFileName (fname ++ ".md")
        | none => filepath
    if filepath.extension.getD "" ≠ "md" then .err (.msg "Bad page path")
    else
      match loadEntry fs .page filepath false with
      | .ok page =>
        match page.canonicalizeMeta
            ⟨some (dashesToSpaces filepath.fileStem), none⟩ with
        | some p => .ok p
        | none => .crash
      | .err e => .err e
      | .crash => .crash

/-- `page_count = (post_count + posts_per_page - 1) / posts_per_page`
(`src/web.rs` line 51). -/
def pageCount (postCount postsPerPage : Nat) : Nat :=
  (postCount + postsPerPage - 1) / postsPerPage

/-- The pagination core of `handle_index_page` (`src/web.rs` lines
47-78): `none` is the out-of-range branch (the 404 the spec calls
PageOutOfRange), `some slice` is the slice `posts[begin..end]` that gets
rendered. -/
def handleIndexPage (posts : List Entry) (postsPerPage : Nat) (pageNum : Nat) :
    Option (List Entry) :=
  let postCount := posts.length
  let pc := pageCount postCount postsPerPage
  if pageNum < 1 ∨ pc < pageNum then none
  else
    let b := (pageNum - 1) * postsPerPage
    let e := min postCount (b + postsPerPage)
    some ((posts.drop b).take (e - b))

/-- The three-way transformation the first canonicalization block applies
to the value found under `categories` / `tags`. -/
def wrapBareString : Option Yaml → Option Yaml
  | some (Yaml.str s) => some (.arr [.str s])
  | some v => some v
  | none => some (.arr [])

/-- The slice the specification asserts for a page: the sub-list from
`(page_number - 1) * page_size` to `min(len, page_number * page_size)`.
This is the reference definition written from the words of the spec, to
be compared against the slice the handler returns. -/
def specPageSlice (posts : List Entry) (P p : Nat) : List Entry :=
  (posts.drop ((p - 1) * P)).take (min posts.length (p * P) - (p - 1) * P)

/-! Concrete fixtures used by the claim theorems. -/

/-- An entry whose front matter has a `created` string and no `updated`
key (fixture for C1). -/
def entryNoUpdated : Entry :=
  { defaultEntry with meta := .hash [(.str "created", .str "2020-01-02 03:04:05")] }

/-- An entry with an undated comparator partner (fixture for C2). -/
def entryUndated : Entry := defaultEntry

/-- An entry with a `created` timestamp (fixture for C2). -/
def entryDated : Entry :=
  { defaultEntry with created := some ⟨2020, 1, 1, 0, 0, 0⟩ }

/-- The pages root of the C3 fixture. -/
def pagesRoot3 : RPath := ⟨true, [.normal "site", .normal "pages"]⟩

/-- The traversal request of the C3 fixture. -/
def relUrl3 : RPath := ⟨false, [.parentDir, .normal "secret"]⟩

/-- A filesystem whose only file lies outside the pages root (fixture
for C3). -/
def fsPages3 : FileSys := [(⟨true, [.normal "site", .normal "secret.md"]⟩, "TOP SECRET")]

/-- The file path of a successful load, `none` otherwise. -/
def okFilepath : Outcome Entry → Option RPath
  | .ok e => some e.filepath
  | _ => none

/-- An entry whose `created` front-matter string is accepted by the
chrono parser but is not zero padded (fixture for C7). -/
def entryUnpadded : Entry :=
  { defaultEntry with meta := .hash [(.str "created", .str "2020-1-2 3:4:5")] }

/-- An entry with a canonical `created` string and no `updated` key
(fixture for C7 and C10 witnesses). -/
def entryFrame : Entry :=
  { defaultEntry with
      meta := .hash [(.str "title", .str "t"),
        (.str "created", .str "2020-01-02 00:00:00")] }

/-- The posts root of the C8 fixture. -/
def postsRoot8 : RPath := ⟨true, [.normal "posts"]⟩

/-- A posts folder holding one well-formed post and one whose filename
matches the pattern but encodes month 13 (fixture for C8). -/
def fsPosts8 : FileSys :=
  [(⟨true, [.normal "posts", .normal "2020-12-27-good.md"]⟩, "hello"),
   (⟨true, [.normal "posts", .normal "2020-13-01-bad.md"]⟩, "hello")]

/-- The post file of the C9 fixture. -/
def pathFm9 : RPath := ⟨true, [.normal "posts", .normal "x.md"]⟩

/-- A file whose first line is `---` immediately followed by the closing
`---` (fixture for C9). -/
def fsFm9 : FileSys := [(pathFm9, "---\n---\nhello")]

/-- An entry whose front matter has `tags` as a bare string and no
`categories` key (fixture for the C6 witness). -/
def entryTagsBare : Entry :=
  { defaultEntry with meta := .hash [(.str "tags", .str "foo")] }

/-- A three-post fixture for the C5 witness. -/
def postsFixture : List Entry := [defaultEntry, defaultEntry, defaultEntry]

/-! Lemmas about hash lookup and insertion. -/

theorem get_hashSet_self (kvs : List (Yaml × Yaml)) (k : String) (v : Yaml) :
    Yaml.get (.hash (hashSet kvs k v)) k = some v := by
  induction kvs with
  | nil => simp [hashSet, Yaml.get, Yaml.keyIs]
  | cons kv rest ih =>
    by_cases h : kv.fst.keyIs k
    · simp [hashSet, h, Yaml.get, List.find?]
    · simp only [hashSet, h, if_false, Yaml.get, List.find?] at ih ⊢
      simp [h, ih]

theorem get_hashSet_ne (kvs : List (Yaml × Yaml)) (k : String) (v : Yaml)
    (k' : String) (h : k' ≠ k) :
    Yaml.get (.hash (hashSet kvs k v)) k' = Yaml.get (.hash kvs) k' := by
  induction kvs with
  | nil =>
    simp [hashSet, Yaml.get, Yaml.keyIs]
    intro hk
    exact absurd hk.symm h
  | cons kv rest ih =>
    obtain ⟨kf, kval⟩ := kv
    by_cases hk : kf.keyIs k
    · cases kf with
      | str s =>
        simp only [Yaml.keyIs, beq_iff_eq] at hk
        subst hk
        have hsk : (s == k') = false := by
          simp only [beq_eq_false_iff_ne]
          exact fun hq => absurd hq.symm h
        simp [hashSet, Yaml.keyIs, Yaml.get, List.find?, hsk]
      | null => simp [Yaml.keyIs] at hk
      | bool b => simp [Yaml.keyIs] at hk
      | int n => simp [Yaml.keyIs] at hk
      | arr xs => simp [Yaml.keyIs] at hk
      | hash kvs2 => simp [Yaml.keyIs] at hk
    · simp only [hashSet, Yaml.get, List.find?, hk, if_false] at ih ⊢
      cases hk' : kf.keyIs k' <;> simp [hk', ih]

theorem get_some_hash (y : Yaml) (k : String) (v : Yaml)
    (h : y.get k = some v) : ∃ kvs, y = .hash kvs := by
  cases y <;> simp [Yaml.get] at h ⊢


theorem ensureArray_spec (key : String) (kvs : List (Yaml × Yaml)) :
    ∃ kvs', ensureArray key (.hash kvs) = some (.hash kvs')
      ∧ Yaml.get (.hash kvs') key = wrapBareString (Yaml.get (.hash kvs) key)
      ∧ ∀ k', k' ≠ key →
          Yaml.get (.hash kvs') k' = Yaml.get (.hash kvs) k' := by
  cases hg : Yaml.get (.hash kvs) key with
  | none =>
    refine ⟨hashSet kvs key (.arr []), by simp [ensureArray, hg], ?_,
      fun k' h => get_hashSet_ne kvs key _ k' h⟩
    rw [get_hashSet_self]
    rfl
  | some v =>
    cases v with
    | str s =>
      refine ⟨hashSet kvs key (.arr [.str s]),
        by simp [ensureArray, hg, Yaml.set], ?_,
        fun k' h => get_hashSet_ne kvs key _ k' h⟩
      rw [get_hashSet_self]
      rfl
    | null => exact ⟨kvs, by simp [ensureArray, hg], by rw [hg]; rfl, fun _ _ => rfl⟩
    | bool b => exact ⟨kvs, by simp [ensureArray, hg], by rw [hg]; rfl, fun _ _ => rfl⟩
    | int n => exact ⟨kvs, by simp [ensureArray, hg], by rw [hg]; rfl, fun _ _ => rfl⟩
    | arr xs => exact ⟨kvs, by simp [ensureArray, hg], by rw [hg]; rfl, fun _ _ => rfl⟩
    | hash h2 => exact ⟨kvs, by simp [ensureArray, hg], by rw [hg]; rfl, fun _ _ => rfl⟩

theorem canonStepArrays_spec (kvs : List (Yaml × Yaml)) :
    ∃ kvs', canonStepArrays (.hash kvs) = some (.hash kvs')
      ∧ Yaml.get (.hash kvs') "categories"
          = wrapBareString (Yaml.get (.hash kvs) "categories")
      ∧ Yaml.get (.hash kvs') "tags"
          = wrapBareString (Yaml.get (.hash kvs) "tags")
      ∧ ∀ k', k' ≠ "categories" → k' ≠ "tags" →
          Yaml.get (.hash kvs') k' = Yaml.get (.hash kvs) k' := by
  obtain ⟨k1, h1, h1c, h1f⟩ := ensureArray_spec "categories" kvs
  obtain ⟨k2, h2, h2t, h2f⟩ := ensureArray_spec "tags" k1
  refine ⟨k2, by simp [canonStepArrays, h1, h2], ?_, ?_, ?_⟩
  · rw [h2f "categories" (by decide), h1c]
  · rw [h2t, h1f "tags" (by decide)]
  · intro k' hc ht
    rw [h2f k' ht, h1f k' hc]

theorem canonStepTitle_spec (d : EntryMetaDefaults) (kvs : List (Yaml × Yaml)) :
    ∃ kvs', canonStepTitle d (.hash kvs) = some (.hash kvs')
      ∧ ∀ k', k' ≠ "title" →
          Yaml.get (.hash kvs') k' = Yaml.get (.hash kvs) k' := by
  cases hg : Yaml.get (.hash kvs) "title" with
  | none =>
    exact ⟨hashSet kvs "title" (.str (d.title.getD "")),
      by simp [canonStepTitle, hg], fun k' h => get_hashSet_ne kvs "title" _ k' h⟩
  | some v => exact ⟨kvs, by simp [canonStepTitle, hg], fun _ _ => rfl⟩

/-- The `created` block keeps the metadata a hash and touches only the
`created` key. -/
theorem canonStepCreated_shape (d : EntryMetaDefaults) (e : Entry)
    (kvs : List (Yaml × Yaml)) (hm : e.meta = .hash kvs) :
    ∃ e', canonStepCreated d e = some e'
      ∧ (e'.meta = e.meta ∨ ∃ v, e'.meta = Yaml.set e.meta "created" v) := by
  obtain ⟨et, fp, url, meta, cr, up, co⟩ := e
  simp only at hm
  subst hm
  cases hg : Yaml.get (.hash kvs) "created" with
  | some v =>
    cases v
    case str s =>
      cases hdt : parseDateTime s with
      | some dt =>
        exact ⟨⟨et, fp, url, .hash kvs, some dt, up, co⟩,
          by simp [canonStepCreated, hg, hdt], Or.inl rfl⟩
      | none =>
        cases hd : parseDate s with
        | some dd =>
          exact ⟨⟨et, fp, url,
              (Yaml.hash kvs).set "created" (.str (s ++ " 00:00:00")),
              some dd.andHms0, up, co⟩,
            by simp [canonStepCreated, Yaml.set, hg, hdt, hd],
            Or.inr ⟨.str (s ++ " 00:00:00"), rfl⟩⟩
        | none =>
          exact ⟨⟨et, fp, url, (Yaml.hash kvs).set "created" (.str ""),
              cr, up, co⟩,
            by simp [canonStepCreated, Yaml.set, hg, hdt, hd],
            Or.inr ⟨.str "", rfl⟩⟩
    all_goals
      cases hc : d.created with
      | some c =>
        exact ⟨⟨et, fp, url,
            (Yaml.hash kvs).set "created" (.str (formatDateTime c)),
            some c, up, co⟩,
          by simp [canonStepCreated, Yaml.set, hg, hc],
          Or.inr ⟨.str (formatDateTime c), rfl⟩⟩
      | none =>
        exact ⟨⟨et, fp, url, (Yaml.hash kvs).set "created" (.str ""),
            cr, up, co⟩,
          by simp [canonStepCreated, Yaml.set, hg, hc], Or.inr ⟨.str "", rfl⟩⟩
  | none =>
    cases hc : d.created with
    | some c =>
      exact ⟨⟨et, fp, url,
          (Yaml.hash kvs).set "created" (.str (formatDateTime c)),
          some c, up, co⟩,
        by simp [canonStepCreated, Yaml.set, hg, hc],
        Or.inr ⟨.str (formatDateTime c), rfl⟩⟩
    | none =>
      exact ⟨⟨et, fp, url, (Yaml.hash kvs).set "created" (.str ""),
          cr, up, co⟩,
        by simp [canonStepCreated, Yaml.set, hg, hc], Or.inr ⟨.str "", rfl⟩⟩

/-- The `updated` block keeps the metadata a hash and touches only the
`updated` key or (in its insertion branch) the `created` key. -/
theorem canonStepUpdated_shape (e : Entry) (kvs : List (Yaml × Yaml))
    (hm : e.meta = .hash kvs) :
    ∃ e', canonStepUpdated e = some e'
      ∧ (e'.meta = e.meta
         ∨ (∃ v, e'.meta = Yaml.set e.meta "updated" v)
         ∨ (∃ v, e'.meta = Yaml.set e.meta "created" v)) := by
  obtain ⟨et, fp, url, meta, cr, up, co⟩ := e
  simp only at hm
  subst hm
  cases hg : Yaml.get (.hash kvs) "updated" with
  | some v =>
    cases v
    case str s =>
      cases hdt : parseDateTime s with
      | some dt =>
        exact ⟨⟨et, fp, url, .hash kvs, cr, some dt, co⟩,
          by simp [canonStepUpdated, hg, hdt], Or.inl rfl⟩
      | none =>
        cases hd : parseDate s with
        | some dd =>
          exact ⟨⟨et, fp, url,
              (Yaml.hash kvs).set "updated" (.str (s ++ " 00:00:00")),
              cr, some dd.andHms0, co⟩,
            by simp [canonStepUpdated, Yaml.set, hg, hdt, hd],
            Or.inr (Or.inl ⟨.str (s ++ " 00:00:00"), rfl⟩)⟩
        | none =>
          exact ⟨⟨et, fp, url, (Yaml.hash kvs).set "updated" (.str ""),
              cr, up, co⟩,
            by simp [canonStepUpdated, Yaml.set, hg, hdt, hd],
            Or.inr (Or.inl ⟨.str "", rfl⟩)⟩
    all_goals
      exact ⟨⟨et, fp, url, (Yaml.hash kvs).set "created" (.str ""),
          cr, up, co⟩,
        by simp [canonStepUpdated, Yaml.set, hg], Or.inr (Or.inr ⟨.str "", rfl⟩)⟩
  | none =>
    exact ⟨⟨et, fp, url, (Yaml.hash kvs).set "created" (.str ""),
        cr, up, co⟩,
      by simp [canonStepUpdated, Yaml.set, hg], Or.inr (Or.inr ⟨.str "", rfl⟩)⟩

/-- Updating one key of a hash does not change lookups of other keys. -/
theorem get_set_ne (kvs : List (Yaml × Yaml)) (k k' : String) (v : Yaml)
    (h : k' ≠ k) :
    ((Yaml.hash kvs).set k v).get k' = (Yaml.hash kvs).get k' := by
  rw [Yaml.set]
  exact get_hashSet_ne kvs k v k' h

/-! Claim theorems. -/

/-- C1: evaluating `canonicalize_meta` on an entry whose metadata lacks
the `updated` key shows the divergence: no `updated` key is inserted at
all; instead the empty string is stored under `created` (overwriting the
timestamp string the `created` block had just accepted), while the
`updated` timestamp field indeed stays unset.  The insertion branch of
the `updated` block names the key `created` (src/core.rs lines 267-272),
contradicting the documented policy that absence of `updated` inserts an
empty string under `updated`. -/
theorem canonicalizeMeta_missing_updated_inserts_created :
    (entryNoUpdated.canonicalizeMeta ⟨none, none⟩).map
        (fun e' => (e'.meta.get "updated", e'.meta.get "created", e'.updated))
      = some (none, some (.str ""), none) := rfl

/-- C2 counterexample: for a first entry with `created` unset and a
second with a date, the comparator returns `Equal`, not the `Less` the
claim states (the first branch of the comparator tests
`p1.created.is_none()` twice, so the both-unset test never looks at
`p2`). -/
theorem postCmp_unset_vs_dated_counterexample :
    postCmp entryUndated entryDated = Ordering.eq
      ∧ Ordering.eq ≠ Ordering.lt := by
  exact ⟨rfl, by decide⟩

/-- C2 (amended): the comparator returns `Equal` whenever the first
entry has `created` unset, regardless of the second; `Greater` when only
the second entry has `created` unset (so an undated second entry sorts
before a dated first); and otherwise compares the two timestamps in
descending order. -/
theorem postCmp_cases (p1 p2 : Entry) :
    (p1.created = none → postCmp p1 p2 = Ordering.eq)
      ∧ (∀ c1, p1.created = some c1 → p2.created = none →
          postCmp p1 p2 = Ordering.gt)
      ∧ (∀ c1 c2, p1.created = some c1 → p2.created = some c2 →
          postCmp p1 p2 = DateTime.cmp c2 c1) := by
  refine ⟨fun h1 => ?_, fun c1 h1 h2 => ?_, fun c1 c2 h1 h2 => ?_⟩ <;>
    simp [postCmp, h1]
  · simp [h2]
  · simp [h2]

/-- C2 witness: the amended characterization applied at a concrete
pair. -/
theorem postCmp_cases_witness :
    postCmp entryUndated entryDated = Ordering.eq :=
  (postCmp_cases entryUndated entryDated).1 rfl

/-- C3: the `..` traversal request joins to a path that does not stay
within the pages root once resolved, yet `load_page` does not reject it:
`Path::starts_with` compares raw components and `pages/../secret` does
start with `pages`, so the request walks out of the root and loads a
file outside it instead of failing with BadURL. -/
theorem loadPage_dotdot_escape_not_rejected :
    pathStartsWith (normalize (pathJoin pagesRoot3 relUrl3)) pagesRoot3 = false
      ∧ okFilepath (loadPage fsPages3 pagesRoot3 relUrl3)
          = some ⟨true, [.normal "site", .normal "secret.md"]⟩
      ∧ pathStartsWith ⟨true, [.normal "site", .normal "secret.md"]⟩ pagesRoot3
          = false :=
  ⟨rfl, rfl, rfl⟩

/-- C6: for every front-matter mapping, full canonicalization wraps a
bare string under `tags` / `categories` into a one-element array,
inserts an empty array when the key is absent, and passes an existing
array through unchanged. -/
theorem canonicalizeMeta_tags_categories (e : Entry) (d : EntryMetaDefaults)
    (kvs : List (Yaml × Yaml)) (hm : e.meta = .hash kvs) :
    ∃ e', e.canonicalizeMeta d = some e'
      ∧ ∀ key, key = "categories" ∨ key = "tags" →
          ((∀ s, e.meta.get key = some (.str s) →
              e'.meta.get key = some (.arr [.str s]))
           ∧ (e.meta.get key = none → e'.meta.get key = some (.arr []))
           ∧ (∀ xs, e.meta.get key = some (.arr xs) →
              e'.meta.get key = some (.arr xs))) := by
  obtain ⟨kvs1, hA, hAc, hAt, hAf⟩ := canonStepArrays_spec kvs
  obtain ⟨kvs2, hT, hTf⟩ := canonStepTitle_spec d kvs1
  obtain ⟨e3, hC, hCsh⟩ :=
    canonStepCreated_shape d { e with meta := .hash kvs2 } kvs2 rfl
  have hm3 : ∃ kvs3, e3.meta = .hash kvs3 := by
    rcases hCsh with h | ⟨v, h⟩
    · exact ⟨kvs2, h⟩
    · exact ⟨hashSet kvs2 "created" v, h⟩
  obtain ⟨kvs3, hm3⟩ := hm3
  obtain ⟨e4, hU, hUsh⟩ := canonStepUpdated_shape e3 kvs3 hm3
  refine ⟨e4, ?_, ?_⟩
  · simp [Entry.canonicalizeMeta, hm, hA, hT, hC, hU]
  · intro key hkey
    have hne_t : key ≠ "title" := by rcases hkey with h | h <;> subst h <;> decide
    have hne_c : key ≠ "created" := by
      rcases hkey with h | h <;> subst h <;> decide
    have hne_u : key ≠ "updated" := by
      rcases hkey with h | h <;> subst h <;> decide
    have h4 : e4.meta.get key = e3.meta.get key := by
      rcases hUsh with h | ⟨v, h⟩ | ⟨v, h⟩
      · rw [h]
      · rw [h, hm3]
        exact get_set_ne kvs3 "updated" key v hne_u
      · rw [h, hm3]
        exact get_set_ne kvs3 "created" key v hne_c
    have h3 : e3.meta.get key = Yaml.get (.hash kvs2) key := by
      rcases hCsh with h | ⟨v, h⟩
      · rw [h]
      · rw [h]
        exact get_set_ne kvs2 "created" key v hne_c
    have hall : e4.meta.get key = wrapBareString (e.meta.get key) := by
      rw [h4, h3, hTf key hne_t, hm]
      rcases hkey with h | h <;> subst h
      · exact hAc
      · exact hAt
    refine ⟨fun s hs => ?_, fun hs => ?_, fun xs hs => ?_⟩ <;>
      rw [hall, hs] <;> rfl


/-- C6 witness: canonicalization at a concrete front-matter mapping. -/
theorem canonicalizeMeta_tags_categories_witness :
    ∃ e', entryTagsBare.canonicalizeMeta ⟨some "t", none⟩ = some e'
      ∧ e'.meta.get "tags" = some (.arr [.str "foo"])
      ∧ e'.meta.get "categories" = some (.arr []) := by
  obtain ⟨e', he, hs⟩ := canonicalizeMeta_tags_categories entryTagsBare
    ⟨some "t", none⟩ [(.str "tags", .str "foo")] rfl
  exact ⟨e', he, (hs "tags" (Or.inr rfl)).1 "foo" rfl,
    (hs "categories" (Or.inl rfl)).2.1 rfl⟩

/-- C7 counterexample: the string `2020-1-2 3:4:5` is accepted by the
full-timestamp parse (chrono numeric items do not require zero padding),
so the timestamp field is set, but the metadata string is left exactly
as it was, which differs from the canonical full-timestamp serialization
of that value. -/
theorem canonStepCreated_unpadded_counterexample :
    (canonStepCreated ⟨none, none⟩ entryUnpadded).map
        (fun e' => (e'.created, e'.meta.get "created"))
      = some (some ⟨2020, 1, 2, 3, 4, 5⟩, some (.str "2020-1-2 3:4:5"))
      ∧ formatDateTime ⟨2020, 1, 2, 3, 4, 5⟩ = "2020-01-02 03:04:05"
      ∧ ("2020-1-2 3:4:5" : String) ≠ "2020-01-02 03:04:05" :=
  ⟨rfl, rfl, by decide⟩

/-- C7 (amended): for a `created` or `updated` value present as a
string, the respective block sets the timestamp field to the parsed
value when the full-timestamp parse succeeds and leaves the string
unchanged (so a zero-padded input stays in canonical form, but an
accepted non-padded input is not re-padded); when only the date-only
parse succeeds it sets the timestamp to midnight and appends
` 00:00:00` to the string; when both fail it blanks the string and
leaves the timestamp field as it was. -/
theorem canon_date_parse_spec :
    (∀ (e : Entry) (d : EntryMetaDefaults) (s : String),
        e.meta.get "created" = some (.str s) →
        ∃ e', canonStepCreated d e = some e'
          ∧ ((∃ dt, parseDateTime s = some dt ∧ e'.created = some dt
                ∧ e'.meta.get "created" = some (.str s))
             ∨ (parseDateTime s = none ∧ ∃ dd, parseDate s = some dd
                ∧ e'.created = some dd.andHms0
                ∧ e'.meta.get "created" = some (.str (s ++ " 00:00:00")))
             ∨ (parseDateTime s = none ∧ parseDate s = none
                ∧ e'.created = e.created
                ∧ e'.meta.get "created" = some (.str ""))))
      ∧ (∀ (e : Entry) (s : String),
          e.meta.get "updated" = some (.str s) →
          ∃ e', canonStepUpdated e = some e'
            ∧ ((∃ dt, parseDateTime s = some dt ∧ e'.updated = some dt
                  ∧ e'.meta.get "updated" = some (.str s))
               ∨ (parseDateTime s = none ∧ ∃ dd, parseDate s = some dd
                  ∧ e'.updated = some dd.andHms0
                  ∧ e'.meta.get "updated" = some (.str (s ++ " 00:00:00")))
               ∨ (parseDateTime s = none ∧ parseDate s = none
                  ∧ e'.updated = e.updated
                  ∧ e'.meta.get "updated" = some (.str "")))) := by
  constructor
  · intro e d s hc
    obtain ⟨kvs, hk⟩ := get_some_hash _ _ _ hc
    cases hdt : parseDateTime s with
    | some dt =>
      exact ⟨{ e with created := some dt },
        by simp [canonStepCreated, hc, hdt], Or.inl ⟨dt, rfl, rfl, hc⟩⟩
    | none =>
      cases hd : parseDate s with
      | some dd =>
        refine ⟨{ e with
            meta := e.meta.set "created" (.str (s ++ " 00:00:00")),
            created := some dd.andHms0 },
          by simp [canonStepCreated, hc, hdt, hd],
          Or.inr (Or.inl ⟨rfl, dd, rfl, rfl, ?_⟩)⟩
        show (e.meta.set "created" (.str (s ++ " 00:00:00"))).get "created" = _
        rw [hk, Yaml.set]
        exact get_hashSet_self kvs "created" _
      | none =>
        refine ⟨{ e with meta := e.meta.set "created" (.str "") },
          by simp [canonStepCreated, hc, hdt, hd],
          Or.inr (Or.inr ⟨rfl, rfl, rfl, ?_⟩)⟩
        show (e.meta.set "created" (.str "")).get "created" = _
        rw [hk, Yaml.set]
        exact get_hashSet_self kvs "created" _
  · intro e s hc
    obtain ⟨kvs, hk⟩ := get_some_hash _ _ _ hc
    cases hdt : parseDateTime s with
    | some dt =>
      exact ⟨{ e with updated := some dt },
        by simp [canonStepUpdated, hc, hdt], Or.inl ⟨dt, rfl, rfl, hc⟩⟩
    | none =>
      cases hd : parseDate s with
      | some dd =>
        refine ⟨{ e with
            meta := e.meta.set "updated" (.str (s ++ " 00:00:00")),
            updated := some dd.andHms0 },
          by simp [canonStepUpdated, hc, hdt, hd],
          Or.inr (Or.inl ⟨rfl, dd, rfl, rfl, ?_⟩)⟩
        show (e.meta.set "updated" (.str (s ++ " 00:00:00"))).get "updated" = _
        rw [hk, Yaml.set]
        exact get_hashSet_self kvs "updated" _
      | none =>
        refine ⟨{ e with meta := e.meta.set "updated" (.str "") },
          by simp [canonStepUpdated, hc, hdt, hd],
          Or.inr (Or.inr ⟨rfl, rfl, rfl, ?_⟩)⟩
        show (e.meta.set "updated" (.str "")).get "updated" = _
        rw [hk, Yaml.set]
        exact get_hashSet_self kvs "updated" _

/-- C7 witness: the amended specification applied to an entry carrying a
canonical `created` string. -/
theorem canon_date_parse_spec_witness :
    ∃ e', canonStepCreated ⟨none, none⟩ entryFrame = some e'
      ∧ ((∃ dt, parseDateTime "2020-01-02 00:00:00" = some dt
            ∧ e'.created = some dt
            ∧ e'.meta.get "created" = some (.str "2020-01-02 00:00:00"))
         ∨ (parseDateTime "2020-01-02 00:00:00" = none
            ∧ ∃ dd, parseDate "2020-01-02 00:00:00" = some dd
            ∧ e'.created = some dd.andHms0
            ∧ e'.meta.get "created"
                = some (.str ("2020-01-02 00:00:00" ++ " 00:00:00")))
         ∨ (parseDateTime "2020-01-02 00:00:00" = none
            ∧ parseDate "2020-01-02 00:00:00" = none
            ∧ e'.created = entryFrame.created
            ∧ e'.meta.get "created" = some (.str ""))) :=
  canon_date_parse_spec.1 entryFrame ⟨none, none⟩ "2020-01-02 00:00:00" rfl

theorem pageCount_eq_ceil (n P : Nat) (hP : 0 < P) :
    (pageCount n P : ℤ) = ⌈(n : ℚ) / (P : ℚ)⌉ := by
  have e1 := Nat.div_add_mod (n + P - 1) P
  have e2 : (n + P - 1) % P < P := Nat.mod_lt _ hP
  have h1 : n ≤ P * ((n + P - 1) / P) := by omega
  have h2 : P * ((n + P - 1) / P) < n + P := by omega
  have hP0 : (0 : ℚ) < (P : ℚ) := by exact_mod_cast hP
  have h1' : (n : ℚ) ≤ (P : ℚ) * (((n + P - 1) / P : Nat) : ℚ) := by
    exact_mod_cast h1
  have h2' : (P : ℚ) * (((n + P - 1) / P : Nat) : ℚ) < (n : ℚ) + (P : ℚ) := by
    exact_mod_cast h2
  unfold pageCount
  symm
  rw [Int.ceil_eq_iff]
  constructor
  · rw [lt_div_iff₀ hP0]
    simp only [Int.cast_natCast]
    nlinarith [h2']
  · rw [div_le_iff₀ hP0]
    simp only [Int.cast_natCast]
    nlinarith [h1']

/-- C4: the page count is the ceiling of the number of posts divided by
the page size (zero when there are no posts), and the out-of-range
branch of the index handler fires exactly for page numbers outside
`[1, page_count]` (hence for every page number when the count is
zero). -/
theorem handleIndexPage_pageCount_spec (posts : List Entry) (P p : Nat)
    (hP : 0 < P) :
    (pageCount posts.length P : ℤ) = ⌈(posts.length : ℚ) / (P : ℚ)⌉
      ∧ (posts.length = 0 → pageCount posts.length P = 0)
      ∧ ((handleIndexPage posts P p).isNone
          ↔ (p < 1 ∨ pageCount posts.length P < p)) := by
  refine ⟨pageCount_eq_ceil posts.length P hP, fun h0 => ?_, ?_⟩
  · rw [h0]
    unfold pageCount
    exact Nat.div_eq_of_lt (by omega)
  · by_cases hcond : p < 1 ∨ pageCount posts.length P < p
    · simp only [handleIndexPage]
      rw [if_pos hcond]
      exact iff_of_true rfl hcond
    · simp only [handleIndexPage]
      rw [if_neg hcond]
      exact iff_of_false (by simp) hcond

/-- C4 witness: the page-count and range characterization at a concrete
post list, page size 2 and the out-of-range page number 5. -/
theorem handleIndexPage_pageCount_spec_witness :
    (pageCount (List.length [defaultEntry]) 2 : ℤ)
        = ⌈((List.length [defaultEntry] : ℚ)) / (2 : ℚ)⌉
      ∧ (List.length [defaultEntry] = 0 →
          pageCount (List.length [defaultEntry]) 2 = 0)
      ∧ ((handleIndexPage [defaultEntry] 2 5).isNone
          ↔ (5 < 1 ∨ pageCount (List.length [defaultEntry]) 2 < 5)) :=
  handleIndexPage_pageCount_spec [defaultEntry] 2 5 (by decide)


theorem take_min_length {α : Type} (l : List α) (k : Nat) :
    l.take (min l.length k) = l.take k := by
  rcases Nat.le_total l.length k with h | h
  · rw [Nat.min_eq_left h, List.take_length, List.take_of_length_le h]
  · rw [Nat.min_eq_right h]

theorem specPageSlice_eq_chunk (posts : List Entry) (P i : Nat) :
    specPageSlice posts P (i + 1) = (posts.drop (i * P)).take P := by
  unfold specPageSlice
  rw [Nat.add_sub_cancel, Nat.succ_mul]
  have h3 : min posts.length (i * P + P) - i * P
      = min (posts.length - i * P) P := by omega
  rw [h3, ← List.length_drop, take_min_length]

theorem pageCount_drop (len P k : Nat) (hP : 0 < P)
    (h : pageCount len P = k + 1) : pageCount (len - P) P = k := by
  unfold pageCount at h ⊢
  rcases Nat.lt_or_ge len P with hl | hl
  · have hk : (len + P - 1) / P < 2 := by
      rw [Nat.div_lt_iff_lt_mul hP]
      omega
    have h0 : len - P = 0 := by omega
    rw [h0]
    rw [Nat.div_eq_of_lt (by omega)]
    omega
  · have hrw : len + P - 1 = (len - 1) + P := by omega
    rw [hrw, Nat.add_div_right _ hP] at h
    have hrw2 : len - P + P - 1 = len - 1 := by omega
    rw [hrw2]
    omega

/-- Concatenating the per-page chunks of size `P` reconstructs the
list. -/
theorem chunks_flatMap (P : Nat) (hP : 0 < P) :
    ∀ (k : Nat) (l : List Entry), pageCount l.length P = k →
      (List.range k).flatMap (fun i => (l.drop (i * P)).take P) = l := by
  intro k
  induction k with
  | zero =>
    intro l hl
    have hlen : l.length = 0 := by
      by_contra hne
      have h1 : 1 ≤ (l.length + P - 1) / P := by
        rw [Nat.one_le_div_iff hP]
        omega
      unfold pageCount at hl
      omega
    rw [List.length_eq_zero] at hlen
    subst hlen
    rfl
  | succ k ih =>
    intro l hl
    calc (List.range (k + 1)).flatMap (fun i => (l.drop (i * P)).take P)
        = l.take P ++ (List.range k).flatMap
            (fun i => (l.drop ((i + 1) * P)).take P) := by
          rw [List.range_succ_eq_map, List.flatMap_cons, List.flatMap_map]
          simp only [Nat.succ_eq_add_one, Nat.zero_mul, List.drop_zero]
      _ = l.take P ++ l.drop P := by
          have hfun : (fun i : Nat => (l.drop ((i + 1) * P)).take P)
              = (fun i : Nat => ((l.drop P).drop (i * P)).take P) := by
            funext i
            have hidx : (i + 1) * P = P + i * P := by ring
            rw [hidx, List.drop_drop]
          rw [hfun, ih (l.drop P)
            (by rw [List.length_drop]
                exact pageCount_drop l.length P k hP hl)]
      _ = l := List.take_append_drop P l

/-- C5: for every in-range page number the handler serves exactly the
slice the specification describes, and the slices of pages 1 through
`page_count` concatenate back to the full sorted list, each post exactly
once. -/
theorem handleIndexPage_slices (posts : List Entry) (P : Nat) (hP : 0 < P) :
    (∀ p, 1 ≤ p → p ≤ pageCount posts.length P →
        handleIndexPage posts P p = some (specPageSlice posts P p))
      ∧ (List.range (pageCount posts.length P)).flatMap
          (fun i => specPageSlice posts P (i + 1)) = posts := by
  constructor
  · intro p h1 h2
    obtain ⟨q, rfl⟩ : ∃ q, p = q + 1 := ⟨p - 1, by omega⟩
    rw [specPageSlice_eq_chunk]
    simp only [handleIndexPage]
    rw [if_neg (by omega)]
    congr 1
    rw [Nat.add_sub_cancel]
    have h3 : min posts.length (q * P + P) - q * P
        = min (posts.length - q * P) P := by omega
    rw [h3, ← List.length_drop, take_min_length]
  · rw [show (fun i => specPageSlice posts P (i + 1))
        = (fun i => (posts.drop (i * P)).take P)
      from funext (fun i => specPageSlice_eq_chunk posts P i)]
    exact chunks_flatMap P hP _ posts rfl


/-- C5 witness: the slice and partition statement at three posts with
page size 2. -/
theorem handleIndexPage_slices_witness :
    handleIndexPage postsFixture 2 1 = some (specPageSlice postsFixture 2 1)
      ∧ (List.range (pageCount postsFixture.length 2)).flatMap
          (fun i => specPageSlice postsFixture 2 (i + 1)) = postsFixture := by
  obtain ⟨h1, h2⟩ := handleIndexPage_slices postsFixture 2 (by decide)
  exact ⟨h1 1 (by decide) (by decide), h2⟩

/-- C8: a directory entry whose filename matches the post pattern but
encodes an invalid calendar date (month 13) makes the whole scan reach
the `NaiveDate::from_ymd` panic branch, instead of being skipped; the
same scan without that single entry succeeds. -/
theorem loadPosts_invalid_date_filename_crashes :
    loadPosts fsPosts8 postsRoot8
        ["2020-12-27-good.md", "2020-13-01-bad.md"] true = Outcome.crash
      ∧ (loadPosts fsPosts8 postsRoot8 ["2020-12-27-good.md"] true).isOk
          = true :=
  ⟨rfl, rfl⟩

/-- C9: on a file whose front-matter block is empty (`---` immediately
followed by `---`), the YAML loader returns zero documents and the
indexing `[0]` in `load_entry` is out of bounds: the failure branch of
the total embedding is reached, rather than an error result. -/
theorem loadEntry_empty_front_matter_crashes :
    loadEntry fsFm9 .post pathFm9 false = Outcome.crash := rfl

/-- C10: the `updated` block is not a frame for the rest of the
metadata: on an entry without an `updated` key it overwrites the value
stored under `created` with the empty string (src/core.rs lines
267-272). -/
theorem canonStepUpdated_overwrites_created :
    entryFrame.meta.get "created" = some (.str "2020-01-02 00:00:00")
      ∧ (canonStepUpdated entryFrame).map (fun e' => e'.meta.get "created")
          = some (some (.str "")) :=
  ⟨rfl, rfl⟩

end Pressure
